import Mathlib

/-!
Verification of the scope-building / field-expansion core of a multi-target
Thrift code generator. The definitions below are a shallow embedding of the
Go sources: the golang backend's `Scope.buildStructLike`,
`Scope.getReferencedStruct`, `Scope.checkUnusedPackagesAfterExpansion` and
`Scope.resolveFunctionResponse` (generator/golang/scope_internal.go), the
openapi backend's `collectExpandedFields`, `getReferencedStruct` and
`processExpandedStructs` (generator/openapi/util.go and its scope file), and
the typescript backend's counterparts. Machine integers (int32 field IDs)
are modelled as `Int` with explicit two's-complement wrapping where the Go
code performs arithmetic. Go strings are modelled as `String`, with the few
`strings.*` library calls re-implemented over the character list so that
all definitions evaluate inside the kernel.
-/

/-- Splits a character list at every occurrence of `sep`, mirroring Go's
`strings.Split` for a one-character separator (empty segments are kept; an
empty input yields one empty segment). The accumulator holds the current
segment reversed. -/
def splitCharsAux (sep : Char) : List Char → List Char → List (List Char)
  | [], acc => [acc.reverse]
  | c :: cs, acc =>
    if c = sep then acc.reverse :: splitCharsAux sep cs []
    else splitCharsAux sep cs (c :: acc)

/-- `strings.Split(s, sep)` for a single-character separator. -/
def strSplit (sep : Char) (s : String) : List String :=
  (splitCharsAux sep s.data []).map String.mk

/-- `strings.Contains(s, ".")` specialised to a one-character needle. -/
def strHas (s : String) (c : Char) : Bool :=
  s.data.contains c

/-- `strings.Join(l, ".")`. -/
def joinDot : List String → String
  | [] => ""
  | [x] => x
  | x :: xs => x ++ "." ++ joinDot xs

/-- Helper for the Go `strings.HasPrefix`: does the second list start with
the first one? -/
def charsLead : List Char → List Char → Bool
  | [], _ => true
  | _ :: _, [] => false
  | a :: as, b :: bs => a = b && charsLead as bs

/-- `strings.HasPrefix(s, pat)`. -/
def strStarts (s pat : String) : Bool :=
  charsLead pat.data s.data

/-- `strings.HasSuffix(s, pat)`. -/
def strEnds (s pat : String) : Bool :=
  charsLead pat.data.reverse s.data.reverse

/-- ASCII lower-casing of one character; Go's `strings.EqualFold` is
modelled on the ASCII range, which covers every string the verified code
compares (the literal `"true"` and annotation values). -/
def asciiLower (c : Char) : Char :=
  if 'A' ≤ c ∧ c ≤ 'Z' then Char.ofNat (c.toNat + 32) else c

/-- `strings.EqualFold(a, b)` (ASCII model). -/
def eqFold (a b : String) : Bool :=
  decide (a.data.map asciiLower = b.data.map asciiLower)

/-- `common.UpperFirstRune` (ASCII model): upper-case the first character. -/
def upperFirst (s : String) : String :=
  match s.data with
  | [] => s
  | c :: cs =>
    String.mk ((if 'a' ≤ c ∧ c ≤ 'z' then Char.ofNat (c.toNat - 32) else c) :: cs)

/-- Two's-complement wrap-around of Go `int32` arithmetic. -/
def wrap32 (n : Int) : Int :=
  (n + 2 ^ 31) % 2 ^ 32 - 2 ^ 31

/-- The `id2str` helper of `Scope.buildStructLike`: negative IDs render as
an underscore followed by the absolute value. -/
def id2str (i : Int) : String :=
  if i < 0 then "_" ++ toString (-i) else toString i

/-- Category of a parsed type descriptor (`parser.Category`), collapsed to
the distinctions the verified code inspects; `IsStructLike` is true exactly
for struct, union and exception. -/
inductive TCat where
  | scalar
  | container
  | enumCat
  | structCat
  | unionCat
  | exceptionCat
deriving DecidableEq, Repr

/-- `parser.Category.IsStructLike`. -/
def TCat.isStructLike : TCat → Bool
  | .structCat => true
  | .unionCat => true
  | .exceptionCat => true
  | _ => false

/-- `parser.Reference`: a structural cross-file pointer carried by a type
descriptor (`Index` into an included file's declaration table plus a name). -/
structure TRef where
  index : Int
  refName : String
deriving DecidableEq, Repr

/-- `parser.Type`, restricted to the attributes the verified code reads. -/
structure TType where
  name : String
  category : TCat
  ref : Option TRef
deriving DecidableEq, Repr

/-- Modelled from the spec: `parser.Annotations` is a key to ordered-values
mapping; `Get` returns the values attached to a key (the parser package is
not part of the sources under verification). -/
abbrev Annos := List (String × List String)

/-- Modelled from the spec: `Annotations.Get` collects the values of every
entry with the requested key, in order. -/
def annoGet (as : Annos) (key : String) : List String :=
  (as.filter (fun e => decide (e.1 = key))).flatMap (fun e => e.2)

/-- `parser.Field`, restricted to the attributes the verified code reads
and copies (name, numeric ID, type, annotations, requiredness, default,
comments). -/
structure TField where
  name : String
  id : Int
  ftype : TType
  annos : Annos
  requiredness : Nat
  defaultVal : Option String
  comments : String
deriving DecidableEq, Repr

/-- `parser.StructLike`: a struct, union or exception declaration.
`category` is the literal category string ("struct", "union", "exception")
as in the parser; `expandable` is the pointer-to-bool `Expandable` flag. -/
structure TStruct where
  name : String
  category : String
  fields : List TField
  annos : Annos
  expandable : Option Bool
deriving DecidableEq, Repr

/-- One parsed IDL file (`parser.Thrift`), restricted to the declaration
lists the verified functions traverse. -/
structure Ast where
  filename : String
  structs : List TStruct
  unions : List TStruct
  exceptions : List TStruct
deriving DecidableEq, Repr

/-- Modelled from the spec: the per-scope Namespace Allocator
(`pkg/namespace`, not part of the sources under verification). `entries`
associates each logical key with its allocated identifier, newest first. -/
structure NsAlloc where
  entries : List (String × String)
deriving DecidableEq, Repr

/-- The allocated identifiers already handed out by this allocator. -/
def NsAlloc.used (ns : NsAlloc) : List String :=
  ns.entries.map (fun e => e.2)

/-- Lookup of the identifier allocated for a logical key. -/
def NsAlloc.lookupKey (ns : NsAlloc) (k : String) : Option String :=
  (ns.entries.find? (fun e => decide (e.1 = k))).map (fun e => e.2)

/-- Modelled from the spec: the underscore-suffix collision policy — retry
with one more `_` until the candidate is free. The fuel equals the number
of taken names, which is enough because each retry discards one taken name
and all retried candidates are pairwise distinct. -/
def freshNameAux (used : List String) (cand : String) : Nat → String
  | 0 => cand
  | k + 1 =>
    if cand ∈ used then freshNameAux (used.erase cand) (cand ++ "_") k else cand

/-- The first free name obtained from `cand` by appending underscores. -/
def freshName (used : List String) (cand : String) : String :=
  freshNameAux used cand used.length

/-- Modelled from the spec: `Namespace.Add(candidate, key)` — return the
name already allocated for `key` if any, otherwise allocate a fresh,
never-before-returned name derived from `candidate` and record it. -/
def NsAlloc.add (ns : NsAlloc) (cand key : String) : String × NsAlloc :=
  match ns.lookupKey key with
  | some n => (n, ns)
  | none =>
    let n := freshName ns.used cand
    (n, ⟨(key, n) :: ns.entries⟩)

/-- Modelled from the spec: `Namespace.MustReserve(name, key)` — reserve
the literal name for the key. Reserving a name already taken (or a key
already bound) is process-fatal in the source; the model leaves the
allocator unchanged in that case, and the verified builds never hit it. -/
def NsAlloc.reserve (ns : NsAlloc) (name key : String) : NsAlloc :=
  match ns.lookupKey key with
  | some _ => ns
  | none => if name ∈ ns.used then ns else ⟨(key, name) :: ns.entries⟩

/-- `Namespace.Get(key)`, returning the empty string when absent. -/
def NsAlloc.get (ns : NsAlloc) (k : String) : String :=
  (ns.lookupKey k).getD ""

/-- The empty allocator (`namespace.NewNamespace(UnderscoreSuffix)`). -/
def NsAlloc.empty : NsAlloc := ⟨[]⟩

/-- `annotationContainsTrue` of the golang backend: exactly one value is
required and it is compared case-insensitively against "true". -/
def goAnnoHasTrue (as : Annos) (key : String) : Bool :=
  match annoGet as key with
  | [] => false
  | [v] => eqFold v "true"
  | _ => false

/-- `isExpandField` (golang backend): the per-field `thrift.expand`
annotation. -/
def goIsExpandField (f : TField) : Bool :=
  goAnnoHasTrue f.annos "thrift.expand"

/-- `isNestedField` (golang backend): the per-field `thrift.nested`
annotation. -/
def goIsNestedField (f : TField) : Bool :=
  goAnnoHasTrue f.annos "thrift.nested"

/-- `annotationContainsTrue` of the openapi and typescript backends:
exactly one value is required and it must be the literal "true". -/
def exactAnnoHasTrue (as : Annos) (key : String) : Bool :=
  match annoGet as key with
  | [] => false
  | [v] => decide (v = "true")
  | _ => false

/-- An included scope as seen by the functions under verification: its AST,
its global name table, and the import path the scope was registered under.
Includes are modelled to the nesting depth the verified functions actually
traverse (one level). -/
structure IncScope where
  ast : Ast
  globalsNs : NsAlloc
  importPath : String
deriving DecidableEq, Repr

/-- `golang.Include`: the package alias chosen for an included file plus
the (possibly nil) built scope for it. -/
structure GoInclude where
  packageName : String
  importPath : String
  scope : Option IncScope
deriving DecidableEq, Repr

/-- The part of `golang.Scope` read by `getReferencedStruct` and
`buildStructLike`: the scope's own AST and its include slots (a slot is
`none` for an unused include, mirroring the nil entries the source keeps
to preserve `Reference.Index` positions). -/
structure GoCtx where
  ast : Ast
  includes : List (Option GoInclude)
deriving DecidableEq, Repr

/-- First struct-like with the given name in a declaration list. -/
def findByNm (l : List TStruct) (nm : String) : Option TStruct :=
  l.find? (fun st => decide (st.name = nm))

/-- One step of the reference-indexed search of `getReferencedStruct`: an
include is considered only when the reference index is within its struct
table, and contributes the first struct with the expected bare name. -/
def refSearchInc (idx : Int) (expected : String) (oinc : Option GoInclude) :
    Option TStruct :=
  match oinc with
  | none => none
  | some inc =>
    match inc.scope with
    | none => none
    | some sc =>
      if idx < (sc.ast.structs.length : Int) then findByNm sc.ast.structs expected
      else none

/-- One step of the name-based include search of `getReferencedStruct`:
skip includes whose package alias differs from the expected package (when
one was given), then search structs, unions and exceptions in order. -/
def nmSearchInc (expPkg expName : String) (oinc : Option GoInclude) :
    Option TStruct :=
  match oinc with
  | none => none
  | some inc =>
    match inc.scope with
    | none => none
    | some sc =>
      if expPkg ≠ "" ∧ inc.packageName ≠ expPkg then none
      else
        (findByNm sc.ast.structs expName).orElse fun _ =>
          (findByNm sc.ast.unions expName).orElse fun _ =>
            findByNm sc.ast.exceptions expName

/-- The name-based branch of `Scope.getReferencedStruct`: current file's
structs, unions, exceptions by the declared (possibly qualified) type name,
then each include (package-constrained) by the bare name, first match
winning. -/
def goNameSearch (s : GoCtx) (tn expPkg expName : String) : Option TStruct :=
  ((findByNm s.ast.structs tn).orElse fun _ =>
    (findByNm s.ast.unions tn).orElse fun _ =>
      findByNm s.ast.exceptions tn).orElse fun _ =>
    s.includes.findSome? (nmSearchInc expPkg expName)

/-- `Scope.getReferencedStruct` of the golang backend: split the declared
type name into expected package and bare name; prefer the structural
reference (index) search over includes with a current-file fallback;
otherwise search by name. -/
def getReferencedStruct (s : GoCtx) (f : TField) : Option TStruct :=
  let tn := f.ftype.name
  let qualified := strHas tn '.'
  let parts := strSplit '.' tn
  let expPkg := if qualified then joinDot parts.dropLast else ""
  let expName := if qualified then parts.getLastD tn else tn
  match f.ftype.ref with
  | some r =>
    if 0 ≤ r.index then
      match s.includes.findSome? (refSearchInc r.index expName) with
      | some st => some st
      | none =>
        if r.index.toNat < s.ast.structs.length then
          match s.ast.structs.get? r.index.toNat with
          | some cand => if cand.name = expName then some cand else none
          | none => none
        else none
    else goNameSearch s tn expPkg expName
  | none => goNameSearch s tn expPkg expName


/-- Feature flags of the golang backend consumed by `buildStructLike`
(`CodeUtils.Features()`), restricted to the ones that function reads. -/
structure GFeatures where
  compatibleNames : Bool
  enableNestedStruct : Bool
  generateSetter : Bool
  genDeepEqual : Bool
  keepUnknownFields : Bool
deriving DecidableEq, Repr

/-- `Scope.identify`: apply the identifier conversion `ident`
(`CodeUtils.Identify`, a name-mangling helper outside the sources under
verification, taken as a parameter), then the CompatibleNames adjustment:
non-synthesized names that look like constructor/args/result names get a
trailing underscore. -/
def identifyName (ident : String → String) (compat : Bool) (raw : String) : String :=
  let nm := ident raw
  if !(strStarts raw "$") && compat &&
      (strStarts nm "New" || strEnds nm "Args" || strEnds nm "Result")
  then nm ++ "_" else nm

/-- An expanded field synthesized by `buildStructLike`: the cloned child
field with adjusted ID, the accessor name allocated in the parent
structure's namespace, the derived method-name strings, and the
back-pointer to the original child field. -/
structure GExpField where
  field : TField
  name : String
  reader : String
  writer : String
  getter : String
  setter : String
  isset : String
  deepEqual : String
  original : Option TField
deriving DecidableEq, Repr

/-- A built field of a golang struct-like (`golang.Field`): the source
field plus allocated names, the expansion flag, the synthesized expanded
fields, and the back-pointer used by `resolveFunctionResponse` (nil for
fields created by `buildStructLike`). -/
structure GField where
  src : TField
  name : String
  reader : String
  writer : String
  getter : String
  setter : String
  isset : String
  deepEqual : String
  isNested : Bool
  isExpandable : Bool
  expFields : List GExpField
  original : Option TField
deriving DecidableEq, Repr

/-- The candidate field-name computation shared by the reservation loop of
`buildStructLike`: the identified field name, or — under
EnableNestedStruct for a nested field — the identified type name (reduced
to its last dot-component). -/
def reservedFieldNm (ident : String → String) (feats : GFeatures) (f : TField) : String :=
  let fn := identifyName ident feats.compatibleNames f.name
  if feats.enableNestedStruct && goIsNestedField f then
    let t := identifyName ident feats.compatibleNames f.ftype.name
    if strHas t '.' then identifyName ident feats.compatibleNames ((strSplit '.' t).getLastD t)
    else t
  else fn

/-- Performs a sequence of `Add` calls (candidate, key) in order. -/
def addSeq (ns : NsAlloc) (l : List (String × String)) : NsAlloc :=
  l.foldl (fun ns p => (ns.add p.1 p.2).2) ns

/-- The candidate/key pairs the method-name reservation loop body of
`buildStructLike` feeds to `Add`, in source order: getter always, setter
and presence-check under their feature gates (`SupportIsSet` is a helper
outside the sources under verification, taken as a parameter),
reader/writer per field ID, deep-equal under its gate. -/
def reservePairsOf (ident : String → String) (feats : GFeatures)
    (supIsSet : TField → Bool) (f : TField) : List (String × String) :=
  let fn := reservedFieldNm ident feats f
  let i := id2str f.id
  [("Get" ++ fn, "$get:" ++ f.name)]
    ++ (if feats.generateSetter then [("Set" ++ fn, "$set:" ++ f.name)] else [])
    ++ (if supIsSet f then [("IsSet" ++ fn, "$isset:" ++ f.name)] else [])
    ++ [("ReadField" ++ i, "$read:" ++ i), ("writeField" ++ i, "$write:" ++ i)]
    ++ (if feats.genDeepEqual then [("Field" ++ i ++ "DeepEqual", "$deepequal:" ++ i)] else [])

/-- The method-name reservation loop body of `buildStructLike`: the
conditional sequence of `Add` calls, applied in order. -/
def reserveFieldNames (ident : String → String) (feats : GFeatures)
    (supIsSet : TField → Bool) (ns : NsAlloc) (f : TField) : NsAlloc :=
  addSeq ns (reservePairsOf ident feats supIsSet f)

/-- Synthesis of one expanded field inside `buildStructLike`: the child
field is cloned with `ID = child.ID + parent.ID * 1000` (int32
arithmetic), its accessor name is allocated in the parent struct's
namespace keyed by the child's source name, and the method-name strings
are derived from the adjusted ID and the allocated name. -/
def mkExpField (ns : NsAlloc) (parentID : Int) (child : TField) : GExpField × NsAlloc :=
  let adjID := wrap32 (child.id + wrap32 (parentID * 1000))
  let pr := ns.add (upperFirst child.name) child.name
  ({ field := { child with id := adjID }
     name := pr.1
     reader := "ReadField" ++ id2str adjID
     writer := "writeField" ++ id2str adjID
     getter := "Get" ++ pr.1
     setter := "Set" ++ pr.1
     isset := "IsSet" ++ pr.1
     deepEqual := "Field" ++ id2str adjID ++ "DeepEqual"
     original := some child }, pr.2)

/-- The expanded-fields loop of `buildStructLike` over the referenced
struct's fields, threading the parent namespace. -/
def mkExpFields (ns : NsAlloc) (parentID : Int) : List TField → List GExpField × NsAlloc
  | [] => ([], ns)
  | c :: cs =>
    let pr := mkExpField ns parentID c
    let rest := mkExpFields pr.2 parentID cs
    (pr.1 :: rest.1, rest.2)

/-- The per-field body of the field-building loop of `buildStructLike`:
allocate the storage name, decide expansion (struct-like category,
resolvable reference, explicit annotation OR expandable target), synthesize
expanded fields, then assemble the `Field` record from the names reserved
earlier. -/
def buildOneField (ident : String → String) (feats : GFeatures) (s : GoCtx)
    (ns : NsAlloc) (f : TField) : GField × NsAlloc :=
  let fn0 := identifyName ident feats.compatibleNames f.name
  let nested := feats.enableNestedStruct && goIsNestedField f
  let pr := ns.add fn0 f.name
  let i := id2str f.id
  let exp :=
    if f.ftype.category.isStructLike then
      match getReferencedStruct s f with
      | some rs =>
        if goIsExpandField f || decide (rs.expandable = some true) then
          let er := mkExpFields pr.2 f.id rs.fields
          (true, er.1, er.2)
        else (false, [], pr.2)
      | none => (false, [], pr.2)
    else (false, [], pr.2)
  let ns2 := exp.2.2
  ({ src := f
     name := pr.1
     reader := ns2.get ("$read:" ++ i)
     writer := ns2.get ("$write:" ++ i)
     getter := ns2.get ("$get:" ++ f.name)
     setter := ns2.get ("$set:" ++ f.name)
     isset := ns2.get ("$isset:" ++ f.name)
     deepEqual := ns2.get ("$deepequal:" ++ i)
     isNested := nested
     isExpandable := exp.1
     expFields := exp.2.1
     original := none }, ns2)

/-- The field-building loop of `buildStructLike`, threading the struct
namespace. -/
def buildFieldsGo (ident : String → String) (feats : GFeatures) (s : GoCtx) :
    NsAlloc → List TField → List GField × NsAlloc
  | ns, [] => ([], ns)
  | ns, f :: fs =>
    let pr := buildOneField ident feats s ns f
    let rest := buildFieldsGo ident feats s pr.2 fs
    (pr.1 :: rest.1, rest.2)

/-- The built-in method names reserved before any field accessor: Read,
Write, String always; CountSetFields for unions, Error for exceptions, and
the feature-gated ones, all skipped for synthesized (`$`-prefixed)
structures. -/
def builtinFuncs (feats : GFeatures) (v : TStruct) : List String :=
  let base := ["Read", "Write", "String"]
  if strStarts v.name "$" then base
  else
    let l := base
    let l := if v.category = "union" then l ++ ["CountSetFields"] else l
    let l := if v.category = "exception" then l ++ ["Error"] else l
    let l := if feats.keepUnknownFields then l ++ ["CarryingUnknownFields"] else l
    if feats.genDeepEqual then l ++ ["DeepEqual"] else l

/-- The result of `Scope.buildStructLike`: the struct's allocated type
name, the reserved built-in method names, the final per-struct namespace
and the built fields. -/
structure GStructLike where
  name : String
  builtins : List String
  ns : NsAlloc
  fields : List GField
deriving DecidableEq, Repr

/-- `Scope.buildStructLike` (golang backend), modulo the registration of
the result into the scope's struct/union/exception lists: allocate the
type name and its global reservations, reserve built-in method names,
reserve per-field accessor names, then build each field (deciding and
performing expansion). Returns the built structure and the updated global
namespace. -/
def buildStructLike (ident : String → String) (supIsSet : TField → Bool)
    (feats : GFeatures) (s : GoCtx) (globals : NsAlloc) (v : TStruct)
    (usedName : Option String) : GStructLike × NsAlloc :=
  let nn := usedName.getD v.name
  let sn0 := identifyName ident feats.compatibleNames nn
  let gpr := globals.add sn0 v.name
  let g1 := gpr.2.reserve ("New" ++ gpr.1) ("$new:" ++ nn)
  let g2 := g1.reserve ("fieldIDToName_" ++ gpr.1) ("$ids:" ++ nn)
  let funcs := builtinFuncs feats v
  let ns0 := funcs.foldl (fun ns fn => ns.reserve fn ("$" ++ fn)) NsAlloc.empty
  let ns1 := v.fields.foldl (fun ns f => reserveFieldNames ident feats supIsSet ns f) ns0
  let br := buildFieldsGo ident feats s ns1 v.fields
  ({ name := gpr.1, builtins := funcs, ns := br.2, fields := br.1 }, g2)

/-- `isExpandField` of the openapi and typescript backends (exact "true"
comparison). -/
def exIsExpandField (f : TField) : Bool :=
  exactAnnoHasTrue f.annos "thrift.expand"

/-- `isExpandableStruct` of the openapi and typescript backends: the
struct-level `Expandable` flag is present and true. -/
def exIsExpandableStruct (st : TStruct) : Bool :=
  decide (st.expandable = some true)

/-- `getReferencedStruct` of the openapi backend (`CodeUtils`): only
struct-like field types with a non-empty name are considered; a qualified
name is reduced to its last dot-component; the current AST's structs,
unions and exceptions are searched in order. Included files are never
consulted. -/
def oaGetReferencedStruct (f : TField) (ast : Ast) : Option TStruct :=
  if !f.ftype.category.isStructLike then none
  else
    let tn := f.ftype.name
    if tn = "" then none
    else
      let actual := if strHas tn '.' then (strSplit '.' tn).getLastD tn else tn
      (findByNm ast.structs actual).orElse fun _ =>
        (findByNm ast.unions actual).orElse fun _ =>
          findByNm ast.exceptions actual

/-- The per-field expansion condition of the openapi
`collectExpandedFields`: the explicit annotation, or a located referenced
struct whose Expandable flag is true. -/
def oaFieldMarked (f : TField) (ast : Ast) : Bool :=
  exIsExpandField f ||
    (match oaGetReferencedStruct f ast with
     | some rs => exIsExpandableStruct rs
     | none => false)

/-- The fields contributed by one field of the openapi
`collectExpandedFields` loop: when the condition holds and the referenced
struct was located, each of its fields is cloned (same name, type, ID,
requiredness, default, annotations and comments — the Go code copies
exactly the attributes the model carries, so the clone equals the
original); otherwise nothing. -/
def oaExpandFieldsOf (f : TField) (ast : Ast) : List TField :=
  if oaFieldMarked f ast then
    match oaGetReferencedStruct f ast with
    | some rs => rs.fields
    | none => []
  else []

/-- Set-style insertion modelling a `map[string]bool` assignment. -/
def insertStr (acc : List String) (x : String) : List String :=
  if x ∈ acc then acc else acc ++ [x]

/-- `CodeUtils.collectExpandedFields` (openapi backend): the flattened
expanded fields of a struct-like plus the set of original field names
marked as expanded. The single Go loop is split into its two accumulators:
the appended field clones and the name set. -/
def oaCollectExpandedFields (st : TStruct) (ast : Ast) : List TField × List String :=
  (st.fields.flatMap (fun f => oaExpandFieldsOf f ast),
   st.fields.foldl (fun acc f => if oaFieldMarked f ast then insertStr acc f.name else acc) [])

/-- An Expansion Record (`ExpandedStruct`): the original declaration, the
flattened expanded fields, and the names of the original fields that were
expanded. -/
structure ExpRec where
  original : TStruct
  expFields : List TField
  expNames : List String
deriving DecidableEq, Repr

/-- Assignment into the `ExpandedStructs` map: replace any previous entry
for the key. -/
def upsertRec (m : List (String × ExpRec)) (k : String) (v : ExpRec) :
    List (String × ExpRec) :=
  (m.filter fun e => !(decide (e.1 = k))) ++ [(k, v)]

/-- Lookup in the `ExpandedStructs` map. -/
def findRec (m : List (String × ExpRec)) (k : String) : Option ExpRec :=
  (m.find? fun e => decide (e.1 = k)).map fun e => e.2

/-- One step of the openapi `processExpandedStructs` loops: record an
Expansion Record when the declaration contributed at least one expanded
field. -/
def oaProcessOne (ast : Ast) (m : List (String × ExpRec)) (sl : TStruct) :
    List (String × ExpRec) :=
  let pr := oaCollectExpandedFields sl ast
  if 0 < pr.1.length then upsertRec m sl.name ⟨sl, pr.1, pr.2⟩ else m

/-- `processExpandedStructs` (openapi backend): structs, then unions, then
exceptions, all through the same per-declaration step. -/
def oaProcessExpandedStructs (ast : Ast) : List (String × ExpRec) :=
  ast.exceptions.foldl (oaProcessOne ast)
    (ast.unions.foldl (oaProcessOne ast)
      (ast.structs.foldl (oaProcessOne ast) []))

/-- One include entry of a parsed file as the typescript resolver sees it:
the literal include path and the (possibly absent) parsed sub-tree.
Sub-trees are modelled to the depth the verified functions traverse. -/
structure TsInclude where
  path : String
  reference : Option Ast
deriving DecidableEq, Repr

/-- A parsed file together with its include entries (typescript backend). -/
structure TsAst where
  core : Ast
  includes : List TsInclude
deriving DecidableEq, Repr

/-- `filepath.Base` as used on include paths: the last slash-separated
component (include paths in the verified inputs are plain relative paths). -/
def pathBase (p : String) : String :=
  (strSplit '/' p).getLastD p

/-- The per-include search of the typescript `getReferencedStruct`: the
include must be named `module + ".thrift"` (either by full path or by base
name), carry a parsed sub-tree, and contain a struct, union or exception
with the bare name. -/
def tsSearchInc (moduleNm structNm : String) (inc : TsInclude) : Option TStruct :=
  let expectedPath := moduleNm ++ ".thrift"
  if inc.path = expectedPath ∨ pathBase inc.path = expectedPath then
    match inc.reference with
    | some r =>
      (findByNm r.structs structNm).orElse fun _ =>
        (findByNm r.unions structNm).orElse fun _ =>
          findByNm r.exceptions structNm
    | none => none
  else none

/-- `Scope.getReferencedStruct` (typescript backend): bare names are
resolved in the current file's structs, unions and exceptions; a
two-component qualified name is resolved through the include whose file
name matches the qualifier. -/
def tsGetReferencedStruct (f : TField) (ast : TsAst) : Option TStruct :=
  if !f.ftype.category.isStructLike then none
  else
    let tn := f.ftype.name
    if !(strHas tn '.') then
      (findByNm ast.core.structs tn).orElse fun _ =>
        (findByNm ast.core.unions tn).orElse fun _ =>
          findByNm ast.core.exceptions tn
    else
      let parts := strSplit '.' tn
      if parts.length ≠ 2 then none
      else
        let moduleNm := parts.getD 0 ""
        let structNm := parts.getD 1 ""
        ast.includes.findSome? (tsSearchInc moduleNm structNm)

/-- The per-field expansion condition of the typescript
`collectExpandedFields`. -/
def tsFieldMarked (f : TField) (ast : TsAst) : Bool :=
  exIsExpandField f ||
    (match tsGetReferencedStruct f ast with
     | some rs => exIsExpandableStruct rs
     | none => false)

/-- The fields contributed by one field of the typescript
`collectExpandedFields` loop (clones equal the originals for the modelled
attributes, as in the openapi backend). -/
def tsExpandFieldsOf (f : TField) (ast : TsAst) : List TField :=
  if tsFieldMarked f ast then
    match tsGetReferencedStruct f ast with
    | some rs => rs.fields
    | none => []
  else []

/-- `Scope.collectExpandedFields` (typescript backend). -/
def tsCollectExpandedFields (st : TStruct) (ast : TsAst) : List TField × List String :=
  (st.fields.flatMap (fun f => tsExpandFieldsOf f ast),
   st.fields.foldl (fun acc f => if tsFieldMarked f ast then insertStr acc f.name else acc) [])

/-- One step of the typescript `processExpandedStructs` loop. -/
def tsProcessOne (ast : TsAst) (m : List (String × ExpRec)) (sl : TStruct) :
    List (String × ExpRec) :=
  let pr := tsCollectExpandedFields sl ast
  if 0 < pr.1.length then upsertRec m sl.name ⟨sl, pr.1, pr.2⟩ else m

/-- `Scope.processExpandedStructs` (typescript backend): only `ast.Structs`
is traversed — unions and exceptions are not visited. -/
def tsProcessExpandedStructs (ast : TsAst) : List (String × ExpRec) :=
  ast.core.structs.foldl (tsProcessOne ast) []

/-- The post-resolution view of one field that
`collectActuallyUsedPackages` reads: its resolved type-name string and the
resolved type-name strings of its expanded fields. -/
structure PrField where
  typeName : String
  expTypeNames : List String
deriving DecidableEq, Repr

/-- An include slot as the pruning pass reads it: the package alias, the
path its scope was registered under, and whether the built scope is
present. -/
structure PrInclude where
  packageName : String
  importPath : String
  hasScope : Bool
deriving DecidableEq, Repr

/-- The state of a golang Scope touched by the unused-import pruning pass:
include slots, the import manager's path-to-package registry and its
`libNotUsed` set, and the resolved type-name strings of all fields
(declared structures plus synthesized ones), typedefs and constants. -/
structure PruneState where
  includes : List (Option PrInclude)
  registry : List (String × String)
  libNotUsed : List String
  fields : List PrField
  typedefs : List String
  constants : List String
deriving DecidableEq, Repr

/-- Modelled from the spec: `Scope.includeIDL` on an include whose scope is
already built returns the package name the import manager registered for
its path (the import manager itself is not part of the sources under
verification); a missing registration would rebuild the include and yield
its package alias again. -/
def includeIdlPkg (st : PruneState) (inc : PrInclude) : String :=
  match (st.registry.find? fun e => decide (e.1 = inc.importPath)).map (fun e => e.2) with
  | some pkg => pkg
  | none => inc.packageName

/-- The qualifier a resolved type-name string contributes to
`collectActuallyUsedPackages`: everything before the last dot, when the
string is non-empty and contains a dot. -/
def qualifierOf (t : String) : Option String :=
  if t ≠ "" ∧ strHas t '.' then
    let parts := strSplit '.' t
    if 2 ≤ parts.length then some (joinDot parts.dropLast) else none
  else none

/-- Every resolved type-name string the pruning pass scans: declared and
synthesized fields, their expanded fields, typedefs and constants. -/
def allTypeNames (st : PruneState) : List String :=
  st.fields.flatMap (fun f => f.typeName :: f.expTypeNames) ++ st.typedefs ++ st.constants

/-- `Scope.collectActuallyUsedPackages`: the set of qualifiers appearing in
any resolved type-name string of the scope. -/
def collectActuallyUsedPackages (st : PruneState) : List String :=
  (allTypeNames st).filterMap qualifierOf

/-- One step of the used-package collection at the head of
`checkUnusedPackagesAfterExpansion`: an include whose registered package
name is not in `libNotUsed` contributes its package alias. -/
def usedStep (st : PruneState) (acc : List String) (oinc : Option PrInclude) : List String :=
  match oinc with
  | none => acc
  | some inc =>
    if inc.hasScope then
      (if includeIdlPkg st inc ∉ st.libNotUsed then insertStr acc inc.packageName else acc)
    else acc

/-- The used-package set collected at the head of
`checkUnusedPackagesAfterExpansion`. -/
def usedPackagesOf (st : PruneState) : List String :=
  st.includes.foldl (usedStep st) []

/-- The re-marking loop body of `checkUnusedPackagesAfterExpansion`: an
include that is in the used set but has no actual reference gets its
registered package name added to `libNotUsed`. -/
def pruneStep (st : PruneState) (used actual : List String) (lnu : List String)
    (oinc : Option PrInclude) : List String :=
  match oinc with
  | none => lnu
  | some inc =>
    if inc.hasScope then
      (if inc.packageName ∈ used ∧ inc.packageName ∉ actual then lnu ++ [includeIdlPkg st inc]
       else lnu)
    else lnu

/-- `Scope.checkUnusedPackagesAfterExpansion`: compute the used-package
set and the actually-referenced set, then extend `libNotUsed` with the
registered package name of every used-but-unreferenced include. -/
def checkUnusedPackagesAfterExpansion (st : PruneState) : PruneState :=
  let used := usedPackagesOf st
  let actual := collectActuallyUsedPackages st
  { st with libNotUsed := st.includes.foldl (pruneStep st used actual) st.libNotUsed }

/-- A response-resolution include as `resolveFunctionResponse` reads it:
the package alias and the include scope's global name table. -/
structure RespInclude where
  packageName : String
  globalsNs : Option NsAlloc
deriving DecidableEq, Repr

/-- The alias-correction search of `resolveFunctionResponse` (and
`resolveFunctionArguments`): the first include whose global table knows the
bare type name supplies the package alias. -/
def correctNsOf (incs : List (Option RespInclude)) (typeName : String) : String :=
  match incs.findSome?
      (fun oinc =>
        match oinc with
        | none => none
        | some inc =>
          match inc.globalsNs with
          | none => none
          | some g => if g.get typeName ≠ "" then some inc.packageName else none) with
  | some ns => ns
  | none => ""

/-- `Scope.resolveFunctionResponse` (golang backend), for the non-oneway
case, restricted to the computation of the function's response type. The
type resolver (`Resolver.ResolveTypeName`, not part of the sources under
verification) is a parameter. Returns `none` when the function is void
(the source leaves the response type unset). -/
def resolveFunctionResponse (resolve : TType → String)
    (incs : List (Option RespInclude)) (voidFlag : Bool) (fs : List GField) :
    Option String :=
  if voidFlag then none
  else
    match fs with
    | [] => none
    | f0 :: _ =>
      if f0.isExpandable ∧ f0.original ≠ none then
        some (resolve ((f0.original.getD f0.src).ftype))
      else if f0.src.name = "success" then
        (if strHas f0.src.ftype.name '.' then
          let typeName := (strSplit '.' f0.src.ftype.name).getLastD f0.src.ftype.name
          let cns := correctNsOf incs typeName
          let fullTypeName := if cns = "" then typeName else cns ++ "." ++ typeName
          some ("*" ++ fullTypeName)
        else some (resolve f0.src.ftype))
      else some (resolve f0.src.ftype)

theorem foldlPreserve {α β : Type} (P : α → Prop) (f : α → β → α)
    (h : ∀ a b, P a → P (f a b)) : ∀ (l : List β) (a : α), P a → P (l.foldl f a) := by
  intro l
  induction l with
  | nil => intro a ha; exact ha
  | cons x xs ih => intro a ha; exact ih (f a x) (h a x ha)

theorem foldlMemMono {α β : Type} (f : List α → β → List α)
    (h : ∀ acc b, acc ⊆ f acc b) (x : α) :
    ∀ (l : List β) (acc : List α), x ∈ acc → x ∈ l.foldl f acc := by
  intro l
  induction l with
  | nil => intro acc hx; exact hx
  | cons y ys ih => intro acc hx; exact ih (f acc y) (h acc y hx)

theorem flatMapCongr {α β : Type} (l : List α) (f g : α → List β)
    (h : ∀ a ∈ l, f a = g a) : l.flatMap f = l.flatMap g := by
  induction l with
  | nil => rfl
  | cons x xs ih =>
    simp only [List.flatMap_cons]
    rw [h x (List.mem_cons_self x xs), ih fun a ha => h a (List.mem_cons_of_mem x ha)]

theorem headAppend {α : Type} (l m : List α) :
    (l ++ m).head? = (l.head?).orElse fun _ => m.head? := by
  cases l <;> rfl

theorem findEqHeadFilter {α : Type} (p : α → Bool) (l : List α) :
    l.find? p = (l.filter p).head? := by
  induction l with
  | nil => rfl
  | cons x xs ih =>
    by_cases hx : p x = true
    · rw [List.find?_cons_of_pos _ hx, List.filter_cons_of_pos hx]
      rfl
    · simp only [Bool.not_eq_true] at hx
      rw [List.find?_cons_of_neg _ (by simp [hx]), List.filter_cons_of_neg (by simp [hx]), ih]

theorem findSomeEqHeadFlatMap {α β : Type} (fo : α → Option β) (g : α → List β)
    (h : ∀ x, fo x = (g x).head?) (l : List α) :
    l.findSome? fo = (l.flatMap g).head? := by
  induction l with
  | nil => rfl
  | cons x xs ih =>
    rw [List.findSome?_cons, List.flatMap_cons, headAppend, h x, ← ih]
    cases (g x).head? <;> rfl

theorem memInsertStr (acc : List String) (x : String) : x ∈ insertStr acc x := by
  unfold insertStr
  by_cases h : x ∈ acc
  · rw [if_pos h]; exact h
  · rw [if_neg h]; exact List.mem_append_right acc (List.mem_singleton.mpr rfl)

theorem subsetInsertStr (acc : List String) (x : String) : acc ⊆ insertStr acc x := by
  unfold insertStr
  by_cases h : x ∈ acc
  · rw [if_pos h]; exact fun a ha => ha
  · rw [if_neg h]; exact List.subset_append_left acc [x]

theorem freshNameAuxLen (k : Nat) :
    ∀ (used : List String) (cand : String), cand.length ≤ (freshNameAux used cand k).length := by
  induction k with
  | zero => intro used cand; exact Nat.le_refl _
  | succ k ih =>
    intro used cand
    unfold freshNameAux
    by_cases h : cand ∈ used
    · simp only [h, if_true]
      calc cand.length ≤ (cand ++ "_").length := by
              rw [String.length_append]; omega
        _ ≤ _ := ih (used.erase cand) (cand ++ "_")
    · simp [h]

theorem freshNameAuxNotMem (k : Nat) :
    ∀ (used : List String) (cand : String), used.length ≤ k →
      freshNameAux used cand k ∉ used := by
  induction k with
  | zero =>
    intro used cand hlen
    have : used = [] := List.length_eq_zero.mp (Nat.le_zero.mp hlen)
    simp [this]
  | succ k ih =>
    intro used cand hlen
    unfold freshNameAux
    by_cases h : cand ∈ used
    · simp only [h, if_true]
      have herase : (used.erase cand).length ≤ k := by
        have hle := List.length_erase_of_mem h
        omega
      have hrec := ih (used.erase cand) (cand ++ "_") herase
      intro hmem
      have hperm := List.perm_cons_erase h
      have hmem2 : freshNameAux (used.erase cand) (cand ++ "_") k ∈ cand :: used.erase cand :=
        hperm.mem_iff.mp hmem
      rcases List.mem_cons.mp hmem2 with heq | hmem3
      · have hlen1 : (cand ++ "_").length ≤ (freshNameAux (used.erase cand) (cand ++ "_") k).length :=
          freshNameAuxLen k (used.erase cand) (cand ++ "_")
        rw [heq, String.length_append] at hlen1
        have hone : ("_" : String).length = 1 := rfl
        omega
      · exact hrec hmem3
    · simp [h]

theorem freshNameNotMem (used : List String) (cand : String) :
    freshName used cand ∉ used :=
  freshNameAuxNotMem used.length used cand (Nat.le_refl _)

/-- Well-formedness of an allocator: the allocated identifiers are pairwise
distinct. -/
def NsAlloc.wf (ns : NsAlloc) : Prop := ns.used.Nodup

theorem wfEmpty : NsAlloc.empty.wf := List.nodup_nil

theorem wfAdd (ns : NsAlloc) (cand key : String) (h : ns.wf) : (ns.add cand key).2.wf := by
  unfold NsAlloc.add
  cases hk : ns.lookupKey key with
  | some n => exact h
  | none =>
    simp only
    unfold NsAlloc.wf NsAlloc.used at h ⊢
    simp only [List.map_cons]
    exact List.nodup_cons.mpr ⟨freshNameNotMem ns.used cand, h⟩

theorem wfReserve (ns : NsAlloc) (name key : String) (h : ns.wf) : (ns.reserve name key).wf := by
  unfold NsAlloc.reserve
  cases hk : ns.lookupKey key with
  | some n => exact h
  | none =>
    by_cases hn : name ∈ ns.used
    · simp [hn, h]
    · simp only [hn, if_false]
      unfold NsAlloc.wf NsAlloc.used at h ⊢
      simp only [List.map_cons]
      exact List.nodup_cons.mpr ⟨hn, h⟩

theorem wfInj (ns : NsAlloc) (h : ns.wf) :
    ∀ e1 ∈ ns.entries, ∀ e2 ∈ ns.entries, e1.1 ≠ e2.1 → e1.2 ≠ e2.2 := by
  intro e1 h1 e2 h2 hk
  have hmap : (ns.entries.map Prod.snd).Nodup := h
  intro hv
  exact hk (congrArg Prod.fst (List.inj_on_of_nodup_map hmap h1 h2 hv))

theorem wfAddSeq (l : List (String × String)) (ns : NsAlloc) (h : ns.wf) : (addSeq ns l).wf :=
  foldlPreserve NsAlloc.wf _ (fun a b ha => wfAdd a b.1 b.2 ha) l ns h

theorem wfMkExpFields (parentID : Int) :
    ∀ (cs : List TField) (ns : NsAlloc), ns.wf → (mkExpFields ns parentID cs).2.wf := by
  intro cs
  induction cs with
  | nil => intro ns h; exact h
  | cons c cs ih =>
    intro ns h
    exact ih _ (wfAdd ns (upperFirst c.name) c.name h)

theorem wfBuildOneField (ident : String → String) (feats : GFeatures) (s : GoCtx)
    (ns : NsAlloc) (f : TField) (h : ns.wf) :
    (buildOneField ident feats s ns f).2.wf := by
  unfold buildOneField
  dsimp only
  have hpr : ((ns.add (identifyName ident feats.compatibleNames f.name) f.name).2).wf :=
    wfAdd ns _ _ h
  cases hc : f.ftype.category.isStructLike
  · simpa [hc] using hpr
  · cases hr : getReferencedStruct s f with
    | none => simpa [hc, hr] using hpr
    | some rs =>
      by_cases hx : (goIsExpandField f || decide (rs.expandable = some true)) = true
      · simpa [hc, hr, hx] using wfMkExpFields f.id rs.fields _ hpr
      · simp only [Bool.not_eq_true] at hx
        simpa [hc, hr, hx] using hpr

theorem wfBuildFieldsGo (ident : String → String) (feats : GFeatures) (s : GoCtx) :
    ∀ (fs : List TField) (ns : NsAlloc), ns.wf → (buildFieldsGo ident feats s ns fs).2.wf := by
  intro fs
  induction fs with
  | nil => intro ns h; exact h
  | cons f fs ih =>
    intro ns h
    exact ih _ (wfBuildOneField ident feats s ns f h)

theorem wfBuiltNs (ident : String → String) (supIsSet : TField → Bool)
    (feats : GFeatures) (s : GoCtx) (globals : NsAlloc) (v : TStruct)
    (usedName : Option String) :
    (buildStructLike ident supIsSet feats s globals v usedName).1.ns.wf := by
  unfold buildStructLike
  dsimp only
  apply wfBuildFieldsGo
  apply foldlPreserve NsAlloc.wf _ (fun a b ha => wfAddSeq _ a ha)
  apply foldlPreserve NsAlloc.wf _ (fun a b ha => wfReserve a b ("$" ++ b) ha)
  exact wfEmpty

/-- The expansion decision `buildStructLike` makes for one field: the type
is struct-like, the referenced struct was located, and the explicit
annotation or the struct-level flag holds. -/
def expandDecision (s : GoCtx) (f : TField) : Bool :=
  f.ftype.category.isStructLike &&
    (match getReferencedStruct s f with
     | some rs => goIsExpandField f || decide (rs.expandable = some true)
     | none => false)

/-- The adjusted IDs of the expanded fields `buildStructLike` synthesizes
for one field (empty when the field does not expand). -/
def expandIdsOf (s : GoCtx) (f : TField) : List Int :=
  if f.ftype.category.isStructLike then
    match getReferencedStruct s f with
    | some rs =>
      if goIsExpandField f || decide (rs.expandable = some true) then
        rs.fields.map (fun c => wrap32 (c.id + wrap32 (f.id * 1000)))
      else []
    | none => []
  else []

theorem mkExpFieldsIds (parentID : Int) :
    ∀ (cs : List TField) (ns : NsAlloc),
      (mkExpFields ns parentID cs).1.map (fun e => e.field.id) =
        cs.map (fun c => wrap32 (c.id + wrap32 (parentID * 1000))) := by
  intro cs
  induction cs with
  | nil => intro ns; rfl
  | cons c cs ih =>
    intro ns
    simp only [mkExpFields, List.map_cons]
    rw [ih]
    rfl

theorem buildOneFieldSrc (ident : String → String) (feats : GFeatures) (s : GoCtx)
    (ns : NsAlloc) (f : TField) : (buildOneField ident feats s ns f).1.src = f := rfl

theorem buildOneFieldIsExp (ident : String → String) (feats : GFeatures) (s : GoCtx)
    (ns : NsAlloc) (f : TField) :
    (buildOneField ident feats s ns f).1.isExpandable = expandDecision s f := by
  unfold buildOneField expandDecision
  dsimp only
  cases hc : f.ftype.category.isStructLike
  · simp [hc]
  · cases hr : getReferencedStruct s f with
    | none => simp [hc, hr]
    | some rs =>
      by_cases hx : (goIsExpandField f || decide (rs.expandable = some true)) = true
      · simp [hc, hr, hx]
      · simp only [Bool.not_eq_true] at hx
        simp [hc, hr, hx]

theorem buildOneFieldExpIds (ident : String → String) (feats : GFeatures) (s : GoCtx)
    (ns : NsAlloc) (f : TField) :
    (buildOneField ident feats s ns f).1.expFields.map (fun e => e.field.id) =
      expandIdsOf s f := by
  unfold buildOneField expandIdsOf
  dsimp only
  cases hc : f.ftype.category.isStructLike
  · simp [hc]
  · cases hr : getReferencedStruct s f with
    | none => simp [hc, hr]
    | some rs =>
      by_cases hx : (goIsExpandField f || decide (rs.expandable = some true)) = true
      · simp [hc, hr, hx, mkExpFieldsIds]
      · simp only [Bool.not_eq_true] at hx
        simp [hc, hr, hx]

theorem buildOneFieldExpNone (ident : String → String) (feats : GFeatures) (s : GoCtx)
    (ns : NsAlloc) (f : TField) (hr : getReferencedStruct s f = none) :
    (buildOneField ident feats s ns f).1.isExpandable = false ∧
      (buildOneField ident feats s ns f).1.expFields = [] := by
  unfold buildOneField
  dsimp only
  cases hc : f.ftype.category.isStructLike
  · simp [hc]
  · simp [hc, hr]

theorem buildFieldsMapSrc (ident : String → String) (feats : GFeatures) (s : GoCtx) :
    ∀ (fs : List TField) (ns : NsAlloc),
      (buildFieldsGo ident feats s ns fs).1.map (fun gf => gf.src) = fs := by
  intro fs
  induction fs with
  | nil => intro ns; rfl
  | cons f fs ih =>
    intro ns
    simp only [buildFieldsGo, List.map_cons]
    rw [ih]
    rfl

theorem buildFieldsMem (ident : String → String) (feats : GFeatures) (s : GoCtx) :
    ∀ (fs : List TField) (ns : NsAlloc) (gf : GField),
      gf ∈ (buildFieldsGo ident feats s ns fs).1 →
      ∃ ns0 f, f ∈ fs ∧ gf = (buildOneField ident feats s ns0 f).1 := by
  intro fs
  induction fs with
  | nil => intro ns gf h; cases h
  | cons f fs ih =>
    intro ns gf h
    rcases List.mem_cons.mp h with heq | hmem
    · exact ⟨ns, f, List.mem_cons_self f fs, heq⟩
    · obtain ⟨ns0, f0, hf0, heq0⟩ := ih _ gf hmem
      exact ⟨ns0, f0, List.mem_cons_of_mem f hf0, heq0⟩

theorem buildMem (ident : String → String) (supIsSet : TField → Bool)
    (feats : GFeatures) (s : GoCtx) (globals : NsAlloc) (v : TStruct)
    (usedName : Option String) (gf : GField)
    (h : gf ∈ (buildStructLike ident supIsSet feats s globals v usedName).1.fields) :
    ∃ ns0 f, f ∈ v.fields ∧ gf = (buildOneField ident feats s ns0 f).1 :=
  buildFieldsMem ident feats s v.fields _ gf h

theorem buildMapSrc (ident : String → String) (supIsSet : TField → Bool)
    (feats : GFeatures) (s : GoCtx) (globals : NsAlloc) (v : TStruct)
    (usedName : Option String) :
    (buildStructLike ident supIsSet feats s globals v usedName).1.fields.map
      (fun gf => gf.src) = v.fields :=
  buildFieldsMapSrc ident feats s v.fields _

theorem wrap32Small (n : Int) (h0 : 0 ≤ n) (h1 : n < 2 ^ 31) : wrap32 n = n := by
  unfold wrap32
  rw [Int.emod_eq_of_lt (by omega) (by omega)]
  omega

/-- An explicit `thrift.expand = "true"` annotation list. -/
def annoExpandTrue : Annos := [("thrift.expand", ["true"])]

/-- All feature flags off. -/
def featsOff : GFeatures := ⟨false, false, false, false, false⟩

/-- A trivial `SupportIsSet` instantiation. -/
def noSup : TField → Bool := fun _ => false

/-- A placeholder built field for safe list indexing in witnesses. -/
def gfDefault : GField :=
  ⟨⟨"", 0, ⟨"", .scalar, none⟩, [], 0, none, ""⟩, "", "", "", "", "", "", "",
    false, false, [], none⟩

/-- C1: for every field of a structure under construction whose type is
struct-like and whose referenced structure is located by the reference
resolver, the field is expandable exactly when it carries an explicit
`thrift.expand = true` annotation OR the referenced structure's Expandable
flag is true — the two conditions are OR'd, in both the golang build and
the openapi expansion collector. -/
theorem c1_expand_or_semantics (ident : String → String) (supIsSet : TField → Bool)
    (feats : GFeatures) (s : GoCtx) (globals : NsAlloc) (v : TStruct)
    (usedName : Option String) (gf : GField)
    (hmem : gf ∈ (buildStructLike ident supIsSet feats s globals v usedName).1.fields)
    (hcat : gf.src.ftype.category.isStructLike = true)
    (rs : TStruct) (hrs : getReferencedStruct s gf.src = some rs)
    (fo : TField) (asto : Ast) (rso : TStruct)
    (hro : oaGetReferencedStruct fo asto = some rso) :
    gf.isExpandable = (goIsExpandField gf.src || decide (rs.expandable = some true)) ∧
      oaFieldMarked fo asto = (exIsExpandField fo || exIsExpandableStruct rso) := by
  constructor
  · obtain ⟨ns0, f, hf, rfl⟩ := buildMem ident supIsSet feats s globals v usedName gf hmem
    rw [buildOneFieldSrc] at hcat hrs
    rw [buildOneFieldIsExp, buildOneFieldSrc]
    unfold expandDecision
    rw [hcat, hrs]
    simp
  · unfold oaFieldMarked
    rw [hro]

/-- A struct not flagged expandable, used to exercise the annotation-only
direction of the OR. -/
def c1Base : TStruct := ⟨"Base", "struct", [⟨"code", 1, ⟨"i32", .scalar, none⟩, [], 0, none, ""⟩], [], none⟩

/-- A scope whose AST declares only `c1Base`. -/
def c1Ctx : GoCtx := ⟨⟨"m.thrift", [c1Base], [], []⟩, []⟩

/-- A field referencing `Base` with an explicit expand annotation. -/
def c1FieldU : TField := ⟨"u", 3, ⟨"Base", .structCat, none⟩, annoExpandTrue, 0, none, ""⟩

/-- A struct holding `c1FieldU`. -/
def c1V : TStruct := ⟨"S", "struct", [c1FieldU], [], none⟩

/-- The golang build of `c1V`. -/
def c1Build : GStructLike := (buildStructLike id noSup featsOff c1Ctx NsAlloc.empty c1V none).1

/-- The built field of `c1Build`. -/
def c1Gf : GField := c1Build.fields.getD 0 gfDefault

theorem c1_witness :
    (c1Gf.isExpandable = (goIsExpandField c1Gf.src || decide (c1Base.expandable = some true)) ∧
        oaFieldMarked c1FieldU ⟨"m.thrift", [c1Base], [], []⟩ =
          (exIsExpandField c1FieldU || exIsExpandableStruct c1Base)) ∧
      c1Gf.isExpandable = true :=
  ⟨c1_expand_or_semantics id noSup featsOff c1Ctx NsAlloc.empty c1V none c1Gf
      (by decide) (by decide) c1Base (by decide) c1FieldU ⟨"m.thrift", [c1Base], [], []⟩
      c1Base (by decide),
    by decide⟩

/-- C5 (amended): when the reference resolver returns absent for a field,
the golang build leaves the field non-expandable with no synthesized
fields and raises no error; the openapi build synthesizes no expanded
fields and raises no error, but still marks the field name as expanded
whenever the field carries an explicit expand annotation. -/
theorem c5_unresolved_not_expandable (ident : String → String) (supIsSet : TField → Bool)
    (feats : GFeatures) (s : GoCtx) (globals : NsAlloc) (v : TStruct)
    (usedName : Option String) (gf : GField)
    (hmem : gf ∈ (buildStructLike ident supIsSet feats s globals v usedName).1.fields)
    (hnone : getReferencedStruct s gf.src = none)
    (fo : TField) (asto : Ast) (hno : oaGetReferencedStruct fo asto = none) :
    gf.isExpandable = false ∧ gf.expFields = [] ∧
      oaExpandFieldsOf fo asto = [] ∧ oaFieldMarked fo asto = exIsExpandField fo := by
  obtain ⟨ns0, f, hf, rfl⟩ := buildMem ident supIsSet feats s globals v usedName gf hmem
  rw [buildOneFieldSrc] at hnone
  obtain ⟨h1, h2⟩ := buildOneFieldExpNone ident feats s ns0 f hnone
  refine ⟨h1, h2, ?_, ?_⟩
  · unfold oaExpandFieldsOf
    cases hm : oaFieldMarked fo asto
    · simp
    · simp [hno]
  · unfold oaFieldMarked
    rw [hno]
    simp

/-- A field with an explicit expand annotation whose type names a struct
that exists nowhere (openapi view). -/
def c5FieldA : TField := ⟨"a", 1, ⟨"Missing", .structCat, none⟩, annoExpandTrue, 0, none, ""⟩

/-- A companion field whose expansion succeeds, forcing the Expansion
Record for the parent struct to exist. -/
def c5FieldB : TField := ⟨"b", 2, ⟨"Base", .structCat, none⟩, [], 0, none, ""⟩

/-- The parent struct holding both fields. -/
def c5S : TStruct := ⟨"S", "struct", [c5FieldA, c5FieldB], [], none⟩

/-- An expandable target struct for `c5FieldB`. -/
def c5Base : TStruct :=
  ⟨"Base", "struct", [⟨"code", 1, ⟨"i32", .scalar, none⟩, [], 0, none, ""⟩], [], some true⟩

/-- The openapi AST for the C5 counterexample. -/
def c5Ast : Ast := ⟨"m.thrift", [c5S, c5Base], [], []⟩

theorem c5_counterexample :
    oaGetReferencedStruct c5FieldA c5Ast = none ∧
      (findRec (oaProcessExpandedStructs c5Ast) "S").map (fun r => r.expNames) =
        some ["a", "b"] := by
  exact ⟨by decide, by decide⟩

/-- A field whose struct-like type resolves nowhere (golang view). -/
def c5GoField : TField := ⟨"u", 1, ⟨"Missing", .structCat, none⟩, annoExpandTrue, 0, none, ""⟩

/-- A struct holding `c5GoField`. -/
def c5GoV : TStruct := ⟨"T", "struct", [c5GoField], [], none⟩

/-- An empty golang scope context. -/
def c5GoCtx : GoCtx := ⟨⟨"m.thrift", [], [], []⟩, []⟩

/-- The golang build of `c5GoV`. -/
def c5GoBuild : GStructLike := (buildStructLike id noSup featsOff c5GoCtx NsAlloc.empty c5GoV none).1

/-- The built field of `c5GoBuild`. -/
def c5GoGf : GField := c5GoBuild.fields.getD 0 gfDefault

theorem c5_witness :
    c5GoGf.isExpandable = false ∧ c5GoGf.expFields = [] ∧
      oaExpandFieldsOf c5FieldA c5Ast = [] ∧
      oaFieldMarked c5FieldA c5Ast = exIsExpandField c5FieldA :=
  c5_unresolved_not_expandable id noSup featsOff c5GoCtx NsAlloc.empty c5GoV none c5GoGf
    (by decide) (by decide) c5FieldA c5Ast (by decide)

/-- C2 (amended): the golang expansion engine synthesizes one expanded
field per field of the referenced structure with adjusted ID equal to the
child's ID plus the parent field's ID times 1000 (exact when the values
stay inside int32 range); the openapi expansion engine also synthesizes
one field per referenced-structure field but keeps the child's original ID
unchanged. -/
theorem c2_adjusted_ids (ident : String → String) (supIsSet : TField → Bool)
    (feats : GFeatures) (s : GoCtx) (globals : NsAlloc) (v : TStruct)
    (usedName : Option String) (gf : GField)
    (hmem : gf ∈ (buildStructLike ident supIsSet feats s globals v usedName).1.fields)
    (hcat : gf.src.ftype.category.isStructLike = true)
    (rs : TStruct) (hrs : getReferencedStruct s gf.src = some rs)
    (hcond : (goIsExpandField gf.src || decide (rs.expandable = some true)) = true)
    (hp0 : 0 ≤ gf.src.id) (hp1 : gf.src.id ≤ 999)
    (hcb : ∀ c ∈ rs.fields, 0 ≤ c.id ∧ c.id ≤ 999)
    (fo : TField) (asto : Ast) (rso : TStruct)
    (hro : oaGetReferencedStruct fo asto = some rso)
    (hmo : oaFieldMarked fo asto = true) :
    gf.expFields.map (fun e => e.field.id) =
        rs.fields.map (fun c => c.id + gf.src.id * 1000) ∧
      (oaExpandFieldsOf fo asto).map (fun c => c.id) = rso.fields.map (fun c => c.id) := by
  constructor
  · obtain ⟨ns0, f, hf, rfl⟩ := buildMem ident supIsSet feats s globals v usedName gf hmem
    rw [buildOneFieldSrc] at hcat hrs hcond hp0 hp1 ⊢
    rw [buildOneFieldExpIds]
    unfold expandIdsOf
    simp only [hcat, hrs, hcond, if_true]
    apply List.map_congr_left
    intro c hc
    obtain ⟨hc0, hc1⟩ := hcb c hc
    have hw1 : wrap32 (f.id * 1000) = f.id * 1000 :=
      wrap32Small _ (by omega) (by omega)
    rw [hw1, wrap32Small _ (by omega) (by omega)]
  · unfold oaExpandFieldsOf
    rw [hmo, hro]
    simp

/-- The openapi input contradicting the adjusted-ID claim: an expandable
base struct with field IDs 1 and 2. -/
def c2OaBase : TStruct :=
  ⟨"Base", "struct",
    [⟨"code", 1, ⟨"i32", .scalar, none⟩, [], 0, none, ""⟩,
     ⟨"msg", 2, ⟨"string", .scalar, none⟩, [], 0, none, ""⟩], [], some true⟩

/-- A parent field with ID 2 referencing `c2OaBase`. -/
def c2OaField : TField := ⟨"base", 2, ⟨"Base", .structCat, none⟩, [], 0, none, ""⟩

/-- The openapi AST for the C2 counterexample. -/
def c2OaAst : Ast := ⟨"m.thrift", [c2OaBase], [], []⟩

theorem c2_counterexample :
    oaFieldMarked c2OaField c2OaAst = true ∧
      (oaExpandFieldsOf c2OaField c2OaAst).map (fun c => c.id) = [1, 2] ∧
      ¬ ((1 : Int) = 1 + 2 * 1000 ∧ (2 : Int) = 2 + 2 * 1000) := by
  exact ⟨by decide, by decide, by decide⟩

/-- An expandable base struct for the golang side of the C2 witness. -/
def c2GoBase : TStruct :=
  ⟨"Base", "struct",
    [⟨"code", 1, ⟨"i32", .scalar, none⟩, [], 0, none, ""⟩,
     ⟨"msg", 2, ⟨"string", .scalar, none⟩, [], 0, none, ""⟩], [], some true⟩

/-- A golang scope declaring `c2GoBase`. -/
def c2GoCtx : GoCtx := ⟨⟨"m.thrift", [c2GoBase], [], []⟩, []⟩

/-- A field with ID 3 referencing `c2GoBase`, with no annotation (the
struct-level flag alone triggers expansion). -/
def c2GoField : TField := ⟨"base", 3, ⟨"Base", .structCat, none⟩, [], 0, none, ""⟩

/-- A struct holding `c2GoField`. -/
def c2GoV : TStruct := ⟨"Resp", "struct", [c2GoField], [], none⟩

/-- The golang build of `c2GoV`. -/
def c2GoBuild : GStructLike :=
  (buildStructLike id noSup featsOff c2GoCtx NsAlloc.empty c2GoV none).1

/-- The built field of `c2GoBuild`. -/
def c2GoGf : GField := c2GoBuild.fields.getD 0 gfDefault

theorem c2_witness :
    c2GoGf.expFields.map (fun e => e.field.id) =
        c2GoBase.fields.map (fun c => c.id + c2GoGf.src.id * 1000) ∧
      (oaExpandFieldsOf c2OaField c2OaAst).map (fun c => c.id) =
        c2OaBase.fields.map (fun c => c.id) :=
  c2_adjusted_ids id noSup featsOff c2GoCtx NsAlloc.empty c2GoV none c2GoGf
    (by decide) (by decide) c2GoBase (by decide) (by decide) (by decide) (by decide)
    (by decide) c2OaField c2OaAst c2OaBase (by decide) (by decide)

/-- The accessor-name list named by the C6 claim: built-in method names,
every declared field's getter, and the accessor name allocated for every
expanded field. -/
def claimAccessorNames (b : GStructLike) : List String :=
  b.builtins ++ b.fields.map (fun gf => gf.getter) ++
    b.fields.flatMap (fun gf => gf.expFields.map (fun e => e.name))

/-- A base struct whose fields are cloned into two different parents. -/
def c6Base : TStruct :=
  ⟨"Base", "struct",
    [⟨"code", 1, ⟨"i32", .scalar, none⟩, [], 0, none, ""⟩,
     ⟨"msg", 2, ⟨"string", .scalar, none⟩, [], 0, none, ""⟩], [], none⟩

/-- A golang scope declaring `c6Base`. -/
def c6Ctx : GoCtx := ⟨⟨"m.thrift", [c6Base], [], []⟩, []⟩

/-- First expandable field of the C6 counterexample struct. -/
def c6FA : TField := ⟨"a", 1, ⟨"Base", .structCat, none⟩, annoExpandTrue, 0, none, ""⟩

/-- Second expandable field of the C6 counterexample struct, referencing
the same base struct. -/
def c6FB : TField := ⟨"b", 2, ⟨"Base", .structCat, none⟩, annoExpandTrue, 0, none, ""⟩

/-- The C6 counterexample struct: two fields expanding the same base. -/
def c6V : TStruct := ⟨"S", "struct", [c6FA, c6FB], [], none⟩

/-- The golang build of `c6V`. -/
def c6Build : GStructLike := (buildStructLike id noSup featsOff c6Ctx NsAlloc.empty c6V none).1

theorem c6_counterexample :
    ¬ (claimAccessorNames c6Build).Nodup ∧
      c6Build.fields.flatMap (fun gf => gf.expFields.map (fun e => e.getter)) =
        ["GetCode", "GetMsg", "GetCode", "GetMsg"] := by
  exact ⟨by decide, by decide⟩

/-- C6 (amended): the identifiers actually allocated through a structure's
namespace are collision-free — no two entries with distinct logical keys
hold the same allocated identifier (colliding candidates get underscore
suffixes). The expanded-field accessor strings that `buildStructLike`
derives by concatenation without allocation are excluded: two expanded
fields sharing a child name receive the same allocated name, as the
counterexample shows. -/
theorem c6_allocator_injective (ident : String → String) (supIsSet : TField → Bool)
    (feats : GFeatures) (s : GoCtx) (globals : NsAlloc) (v : TStruct)
    (usedName : Option String) (e1 e2 : String × String)
    (h1 : e1 ∈ (buildStructLike ident supIsSet feats s globals v usedName).1.ns.entries)
    (h2 : e2 ∈ (buildStructLike ident supIsSet feats s globals v usedName).1.ns.entries)
    (hk : e1.1 ≠ e2.1) : e1.2 ≠ e2.2 :=
  wfInj _ (wfBuiltNs ident supIsSet feats s globals v usedName) e1 h1 e2 h2 hk

theorem c6_witness : ("Geta" : String) ≠ "Getb" :=
  c6_allocator_injective id noSup featsOff c6Ctx NsAlloc.empty c6V none
    ("$get:a", "Geta") ("$get:b", "Getb") (by decide) (by decide) (by decide)

/-- C8: for a non-oneway, non-void function whose result structure's first
(success) field is flagged expandable and carries a back-pointer to the
original struct field, the resolved response type is computed from the
original field's type through the back-pointer, for every type resolver. -/
theorem c8_response_from_original (resolve : TType → String)
    (incs : List (Option RespInclude)) (rest : List GField) (f0 : GField)
    (orig : TField) (hexp : f0.isExpandable = true) (horig : f0.original = some orig) :
    resolveFunctionResponse resolve incs false (f0 :: rest) =
      some (resolve orig.ftype) := by
  unfold resolveFunctionResponse
  simp [hexp, horig]

/-- The original struct field behind the C8 witness's success slot. -/
def c8Orig : TField := ⟨"r", 0, ⟨"RealType", .structCat, none⟩, [], 0, none, ""⟩

/-- A success field flagged expandable whose own type is a synthesized
stand-in, with the back-pointer set to `c8Orig`. -/
def c8F0 : GField :=
  ⟨⟨"success", 0, ⟨"SynthType", .structCat, none⟩, [], 0, none, ""⟩,
    "", "", "", "", "", "", "", false, true, [], some c8Orig⟩

/-- A resolver distinguishing the two types by name. -/
def c8Resolve : TType → String := fun t => t.name

theorem c8_witness :
    resolveFunctionResponse c8Resolve [] false [c8F0] = some "RealType" ∧
      ("RealType" : String) ≠ "SynthType" := by
  refine ⟨?_, by decide⟩
  rw [c8_response_from_original c8Resolve [] [] c8F0 c8Orig (by decide) (by decide)]
  rfl

/-- The candidates one include contributes under the claim's wording of
the search: skipped unless the package matches (for qualified names), and
otherwise its structs, unions and exceptions with the bare name, in that
order. -/
def claimIncCandidates (expPkg expName : String) (oinc : Option GoInclude) :
    List TStruct :=
  match oinc with
  | none => []
  | some inc =>
    match inc.scope with
    | none => []
    | some sc =>
      if expPkg ≠ "" ∧ inc.packageName ≠ expPkg then []
      else (sc.ast.structs ++ sc.ast.unions ++ sc.ast.exceptions).filter
        (fun st => decide (st.name = expName))

/-- The full candidate list in the claim's order: the current file's
structs, unions and exceptions matching the declared type name, then each
included scope's contribution. -/
def claimCandidates (s : GoCtx) (f : TField) : List TStruct :=
  let tn := f.ftype.name
  let qualified := strHas tn '.'
  let parts := strSplit '.' tn
  let expPkg := if qualified then joinDot parts.dropLast else ""
  let expName := if qualified then parts.getLastD tn else tn
  (s.ast.structs ++ s.ast.unions ++ s.ast.exceptions).filter
      (fun st => decide (st.name = tn))
    ++ s.includes.flatMap (claimIncCandidates expPkg expName)

/-- The claim-shaped resolver: the first candidate in the claim's search
order, or absent. -/
def claimOrderSearch (s : GoCtx) (f : TField) : Option TStruct :=
  (claimCandidates s f).head?

theorem orElseAssoc {α : Type} (a b c : Option α) :
    ((a.orElse fun _ => b).orElse fun _ => c) =
      a.orElse fun _ => (b.orElse fun _ => c) := by
  cases a <;> rfl

theorem nmSearchIncEq (expPkg expName : String) (oinc : Option GoInclude) :
    nmSearchInc expPkg expName oinc = (claimIncCandidates expPkg expName oinc).head? := by
  cases oinc with
  | none => rfl
  | some inc =>
    cases hs : inc.scope with
    | none => simp [nmSearchInc, claimIncCandidates, hs]
    | some sc =>
      by_cases hp : expPkg ≠ "" ∧ inc.packageName ≠ expPkg
      · simp [nmSearchInc, claimIncCandidates, hs, hp]
      · simp only [nmSearchInc, claimIncCandidates, hs, if_neg hp]
        unfold findByNm
        rw [List.filter_append, List.filter_append, headAppend, headAppend,
          findEqHeadFilter, findEqHeadFilter, findEqHeadFilter]
        simp only [orElseAssoc]

theorem goNameSearchEq (s : GoCtx) (tn expPkg expName : String) :
    goNameSearch s tn expPkg expName =
      ((s.ast.structs ++ s.ast.unions ++ s.ast.exceptions).filter
          (fun st => decide (st.name = tn))
        ++ s.includes.flatMap (claimIncCandidates expPkg expName)).head? := by
  unfold goNameSearch findByNm
  rw [headAppend, List.filter_append, List.filter_append, headAppend, headAppend,
    findEqHeadFilter, findEqHeadFilter, findEqHeadFilter,
    findSomeEqHeadFlatMap (nmSearchInc expPkg expName)
      (claimIncCandidates expPkg expName) (nmSearchIncEq expPkg expName) s.includes]
  simp only [orElseAssoc]

/-- C4: for a field whose declared type name is namespace-qualified and
which carries no structural reference, the golang resolver equals the
claim's search: current file's structs, then unions, then exceptions, then
the three lists of each included scope constrained by package-name
equality, short-circuiting on the first match. -/
theorem c4_name_resolution (s : GoCtx) (f : TField)
    (href : f.ftype.ref = none) (hq : strHas f.ftype.name '.' = true) :
    getReferencedStruct s f = claimOrderSearch s f := by
  unfold getReferencedStruct claimOrderSearch claimCandidates
  rw [href]
  simp only [hq, if_true]
  exact goNameSearchEq s f.ftype.name _ _

/-- The struct `MyData` living only in an included file. -/
def c4MyData : TStruct :=
  ⟨"MyData", "struct", [⟨"x", 1, ⟨"i32", .scalar, none⟩, [], 0, none, ""⟩], [], none⟩

/-- The included scope declaring `c4MyData`, registered under package
alias `base`. -/
def c4Inc : GoInclude :=
  ⟨"base", "a/base", some ⟨⟨"base.thrift", [c4MyData], [], []⟩, NsAlloc.empty, "a/base"⟩⟩

/-- A scope whose own AST declares nothing but which includes `c4Inc`. -/
def c4Ctx : GoCtx := ⟨⟨"m.thrift", [], [], []⟩, [some c4Inc]⟩

/-- A field of qualified type `base.MyData` with no structural reference. -/
def c4Field : TField := ⟨"d", 1, ⟨"base.MyData", .structCat, none⟩, [], 0, none, ""⟩

theorem c4_witness :
    getReferencedStruct c4Ctx c4Field = claimOrderSearch c4Ctx c4Field ∧
      getReferencedStruct c4Ctx c4Field = some c4MyData :=
  ⟨c4_name_resolution c4Ctx c4Field (by decide) (by decide), by decide⟩

theorem findRecUpsertSelf (m : List (String × ExpRec)) (k : String) (v : ExpRec) :
    findRec (upsertRec m k v) k = some v := by
  unfold findRec upsertRec
  induction m with
  | nil => simp [List.find?]
  | cons e m ih =>
    by_cases he : e.1 = k
    · rw [List.filter_cons_of_neg (by simp [he])]
      exact ih
    · rw [List.filter_cons_of_pos (by simp [he]), List.cons_append,
        List.find?_cons_of_neg _ (by simp [he])]
      exact ih

theorem findRecUpsertOther (m : List (String × ExpRec)) (k : String) (v : ExpRec)
    (k2 : String) (hk : k2 ≠ k) : findRec (upsertRec m k v) k2 = findRec m k2 := by
  unfold findRec upsertRec
  induction m with
  | nil =>
    rw [List.filter_nil, List.nil_append,
      List.find?_cons_of_neg _ (by simp only [decide_eq_true_eq]; exact fun h => hk h.symm)]
  | cons e m ih =>
    by_cases he : e.1 = k
    · rw [List.filter_cons_of_neg (by simp [he]),
        List.find?_cons_of_neg _ (by simp only [he, decide_eq_true_eq]; exact fun h => hk h.symm)]
      exact ih
    · by_cases he2 : e.1 = k2
      · rw [List.filter_cons_of_pos (by simp [he]), List.cons_append,
          List.find?_cons_of_pos _ (by simp [he2]), List.find?_cons_of_pos _ (by simp [he2])]
      · rw [List.filter_cons_of_pos (by simp [he]), List.cons_append,
          List.find?_cons_of_neg _ (by simp [he2]), List.find?_cons_of_neg _ (by simp [he2])]
        exact ih

theorem oaProcessOnePreserve (ast : Ast) (m : List (String × ExpRec)) (sl : TStruct)
    (k : String) (hk : sl.name ≠ k) :
    findRec (oaProcessOne ast m sl) k = findRec m k := by
  unfold oaProcessOne
  by_cases h : 0 < (oaCollectExpandedFields sl ast).1.length
  · rw [if_pos h, findRecUpsertOther _ _ _ _ (fun h2 => hk h2.symm)]
  · rw [if_neg h]

theorem foldProcessPreserve (ast : Ast) :
    ∀ (l : List TStruct) (m : List (String × ExpRec)) (k : String),
      k ∉ l.map (fun st => st.name) →
      findRec (l.foldl (oaProcessOne ast) m) k = findRec m k := by
  intro l
  induction l with
  | nil => intro m k _; rfl
  | cons h t ih =>
    intro m k hk
    simp only [List.map_cons, List.mem_cons, not_or] at hk
    rw [List.foldl_cons, ih _ k hk.2, oaProcessOnePreserve ast m h k (fun h2 => hk.1 h2.symm)]

theorem foldProcessFound (ast : Ast) :
    ∀ (l : List TStruct) (m : List (String × ExpRec)) (u : TStruct),
      (l.map (fun st => st.name)).Nodup → u ∈ l →
      (oaCollectExpandedFields u ast).1 ≠ [] →
      findRec (l.foldl (oaProcessOne ast) m) u.name =
        some ⟨u, (oaCollectExpandedFields u ast).1, (oaCollectExpandedFields u ast).2⟩ := by
  intro l
  induction l with
  | nil => intro m u _ hu; cases hu
  | cons h t ih =>
    intro m u hnd hu hne
    simp only [List.map_cons, List.nodup_cons] at hnd
    rcases List.mem_cons.mp hu with heq | hmem
    · subst heq
      rw [List.foldl_cons, foldProcessPreserve ast t _ u.name hnd.1]
      unfold oaProcessOne
      rw [if_pos (by exact List.length_pos.mpr hne), findRecUpsertSelf]
    · have hne2 : h.name ≠ u.name := by
        intro h2
        exact hnd.1 (h2 ▸ List.mem_map_of_mem (fun st => st.name) hmem)
      rw [List.foldl_cons]
      exact ih _ u hnd.2 hmem hne

theorem upsertKeys (m : List (String × ExpRec)) (k : String) (v : ExpRec)
    (ent : String × ExpRec) (h : ent ∈ upsertRec m k v) :
    ent.1 ∈ m.map (fun e => e.1) ∨ ent.1 = k := by
  unfold upsertRec at h
  rcases List.mem_append.mp h with h1 | h2
  · exact Or.inl (List.mem_map_of_mem _ (List.mem_of_mem_filter h1))
  · rcases List.mem_singleton.mp h2 with rfl
    exact Or.inr rfl

theorem tsFoldKeys (ast : TsAst) :
    ∀ (l : List TStruct) (m : List (String × ExpRec)) (ent : String × ExpRec),
      ent ∈ l.foldl (tsProcessOne ast) m →
      ent.1 ∈ m.map (fun e => e.1) ∨ ent.1 ∈ l.map (fun st => st.name) := by
  intro l
  induction l with
  | nil => intro m ent h; exact Or.inl (List.mem_map_of_mem _ h)
  | cons h t ih =>
    intro m ent hent
    rw [List.foldl_cons] at hent
    rcases ih _ ent hent with h1 | h2
    · unfold tsProcessOne at h1
      by_cases hc : 0 < (tsCollectExpandedFields h ast).1.length
      · rw [if_pos hc] at h1
        rcases List.mem_map.mp h1 with ⟨e, he, hkey⟩
        rcases upsertKeys m h.name _ e he with hk1 | hk2
        · exact Or.inl (hkey ▸ hk1)
        · exact Or.inr (by simp [← hkey, hk2])
      · rw [if_neg hc] at h1
        exact Or.inl h1
    · exact Or.inr (List.mem_cons_of_mem _ h2)

/-- C9 (amended): the openapi scope build creates Expansion Records for
unions and exceptions through exactly the same per-declaration step as for
structs, so a union or exception with at least one expanded field gets the
record computed by `collectExpandedFields`; the typescript scope build
visits only structs, so every key of its `ExpandedStructs` map is a struct
name and no union or exception ever gets a record. -/
theorem c9_union_exception_records (ast : Ast) (u e : TStruct)
    (hu : u ∈ ast.unions) (hndu : (ast.unions.map (fun st => st.name)).Nodup)
    (hnex : u.name ∉ ast.exceptions.map (fun st => st.name))
    (hneu : (oaCollectExpandedFields u ast).1 ≠ [])
    (he : e ∈ ast.exceptions) (hnde : (ast.exceptions.map (fun st => st.name)).Nodup)
    (hnee : (oaCollectExpandedFields e ast).1 ≠ [])
    (tsa : TsAst) (ent : String × ExpRec) (hent : ent ∈ tsProcessExpandedStructs tsa) :
    findRec (oaProcessExpandedStructs ast) u.name =
        some ⟨u, (oaCollectExpandedFields u ast).1, (oaCollectExpandedFields u ast).2⟩ ∧
      findRec (oaProcessExpandedStructs ast) e.name =
        some ⟨e, (oaCollectExpandedFields e ast).1, (oaCollectExpandedFields e ast).2⟩ ∧
      ent.1 ∈ tsa.core.structs.map (fun st => st.name) := by
  refine ⟨?_, ?_, ?_⟩
  · unfold oaProcessExpandedStructs
    rw [foldProcessPreserve ast ast.exceptions _ u.name hnex,
      foldProcessFound ast ast.unions _ u hndu hu hneu]
  · unfold oaProcessExpandedStructs
    rw [foldProcessFound ast ast.exceptions _ e hnde he hnee]
  · rcases tsFoldKeys tsa tsa.core.structs [] ent hent with h1 | h2
    · cases h1
    · exact h2

/-- An expandable base struct shared by the C9 inputs. -/
def c9Base : TStruct :=
  ⟨"Base", "struct", [⟨"code", 1, ⟨"i32", .scalar, none⟩, [], 0, none, ""⟩], [], some true⟩

/-- A union whose single field references the expandable base. -/
def c9U : TStruct :=
  ⟨"U", "union", [⟨"base", 1, ⟨"Base", .structCat, none⟩, [], 0, none, ""⟩], [], none⟩

/-- An exception whose single field references the expandable base. -/
def c9E : TStruct :=
  ⟨"E", "exception", [⟨"base", 1, ⟨"Base", .structCat, none⟩, [], 0, none, ""⟩], [], none⟩

/-- The typescript AST for the C9 counterexample: the union `U` has an
expanded field but sits in the unions list. -/
def c9CexTs : TsAst := ⟨⟨"m.thrift", [c9Base], [c9U], []⟩, []⟩

theorem c9_counterexample :
    (tsCollectExpandedFields c9U c9CexTs).1 ≠ [] ∧
      findRec (tsProcessExpandedStructs c9CexTs) "U" = none := by
  exact ⟨by decide, by decide⟩

/-- The openapi AST for the C9 witness: a union and an exception, both
with an expanded field. -/
def c9OaAst : Ast := ⟨"m.thrift", [c9Base], [c9U], [c9E]⟩

/-- A struct with an expanded field, for the typescript key clause of the
C9 witness. -/
def c9SExp : TStruct :=
  ⟨"SExp", "struct", [⟨"base", 1, ⟨"Base", .structCat, none⟩, [], 0, none, ""⟩], [], none⟩

/-- The typescript AST of the C9 witness. -/
def c9WTs : TsAst := ⟨⟨"m.thrift", [c9SExp, c9Base], [], []⟩, []⟩

/-- A placeholder record for safe indexing. -/
def recDefault : String × ExpRec := ("", ⟨⟨"", "", [], [], none⟩, [], []⟩)

/-- The entry the typescript build produces for `c9SExp`. -/
def c9Ent : String × ExpRec := (tsProcessExpandedStructs c9WTs).getD 0 recDefault

theorem c9_witness :
    findRec (oaProcessExpandedStructs c9OaAst) c9U.name =
        some ⟨c9U, (oaCollectExpandedFields c9U c9OaAst).1,
          (oaCollectExpandedFields c9U c9OaAst).2⟩ ∧
      findRec (oaProcessExpandedStructs c9OaAst) c9E.name =
        some ⟨c9E, (oaCollectExpandedFields c9E c9OaAst).1,
          (oaCollectExpandedFields c9E c9OaAst).2⟩ ∧
      c9Ent.1 ∈ c9WTs.core.structs.map (fun st => st.name) :=
  c9_union_exception_records c9OaAst c9U c9E (by decide) (by decide) (by decide)
    (by decide) (by decide) (by decide) (by decide) c9WTs c9Ent (by decide)

theorem foldlMemHit {α β : Type} (f : List α → β → List α)
    (hext : ∀ acc b, acc ⊆ f acc b) (x : α) (b0 : β) (hb : ∀ acc, x ∈ f acc b0) :
    ∀ (l : List β) (acc : List α), b0 ∈ l → x ∈ l.foldl f acc := by
  intro l
  induction l with
  | nil => intro acc h; cases h
  | cons h t ih =>
    intro acc hmem
    rcases List.mem_cons.mp hmem with heq | hmem2
    · subst heq
      exact foldlMemMono f hext x t (f acc b0) (hb acc)
    · exact ih (f acc h) hmem2

theorem usedStepExtends (st : PruneState) :
    ∀ (acc : List String) (oinc : Option PrInclude), acc ⊆ usedStep st acc oinc := by
  intro acc oinc
  unfold usedStep
  cases oinc with
  | none => exact fun a ha => ha
  | some inc =>
    by_cases h1 : inc.hasScope
    · by_cases h2 : includeIdlPkg st inc ∉ st.libNotUsed
      · simp only [h1, if_true, h2]
        exact subsetInsertStr acc inc.packageName
      · simp only [h1, if_true, h2, if_false]
        exact fun a ha => ha
    · simp only [h1, if_false]
      exact fun a ha => ha

theorem pruneStepExtends (st : PruneState) (used actual : List String) :
    ∀ (lnu : List String) (oinc : Option PrInclude),
      lnu ⊆ pruneStep st used actual lnu oinc := by
  intro lnu oinc
  unfold pruneStep
  cases oinc with
  | none => exact fun a ha => ha
  | some inc =>
    by_cases h1 : inc.hasScope
    · by_cases h2 : inc.packageName ∈ used ∧ inc.packageName ∉ actual
      · simp only [h1, if_true, h2]
        exact List.subset_append_left lnu _
      · simp only [h1, if_true, h2, if_false]
        exact fun a ha => ha
    · simp only [h1, if_false]
      exact fun a ha => ha

/-- C10: the unused-import pruning pass only ever adds package names to
`libNotUsed` — every package already marked unused before the pass is
still marked unused after it. -/
theorem c10_prune_monotone (st : PruneState) (x : String) (hx : x ∈ st.libNotUsed) :
    x ∈ (checkUnusedPackagesAfterExpansion st).libNotUsed := by
  unfold checkUnusedPackagesAfterExpansion
  exact foldlMemMono _ (pruneStepExtends st _ _) x st.includes st.libNotUsed hx

/-- C7: for an include whose scope was built, whose registered package
name is not yet in `libNotUsed` (originally used) and whose package alias
appears as a qualifier in no resolved type-name string of any field,
expanded field, typedef or constant, the pass flips the include to unused:
its registered package name lands in `libNotUsed`. -/
theorem c7_unused_pruned (st : PruneState) (inc : PrInclude)
    (hmem : some inc ∈ st.includes) (hsc : inc.hasScope = true)
    (hused : includeIdlPkg st inc ∉ st.libNotUsed)
    (hq : ∀ t ∈ allTypeNames st, qualifierOf t ≠ some inc.packageName) :
    includeIdlPkg st inc ∈ (checkUnusedPackagesAfterExpansion st).libNotUsed := by
  have hact : inc.packageName ∉ collectActuallyUsedPackages st := by
    intro hin
    obtain ⟨t, ht, hqt⟩ := List.mem_filterMap.mp hin
    exact hq t ht hqt
  have husedp : inc.packageName ∈ usedPackagesOf st := by
    unfold usedPackagesOf
    refine foldlMemHit (usedStep st) (usedStepExtends st) inc.packageName (some inc)
      (fun acc => ?_) st.includes [] hmem
    unfold usedStep
    simp only [hsc, if_true, hused, if_true]
    exact memInsertStr acc inc.packageName
  unfold checkUnusedPackagesAfterExpansion
  refine foldlMemHit (pruneStep st (usedPackagesOf st) (collectActuallyUsedPackages st))
    (pruneStepExtends st _ _) (includeIdlPkg st inc) (some inc)
    (fun lnu => ?_) st.includes st.libNotUsed hmem
  unfold pruneStep
  simp only [hsc, if_true]
  rw [if_pos ⟨husedp, hact⟩]
  exact List.mem_append_right lnu (List.mem_singleton.mpr rfl)

/-- The include of the C7/C10 witness scope. -/
def c7Inc : PrInclude := ⟨"base", "a/base", true⟩

/-- A pruning-pass state with one built include whose alias `base` appears
in no resolved type name, and one package already marked unused. -/
def c7St : PruneState :=
  ⟨[some c7Inc], [("a/base", "base")], ["old"],
    [⟨"int64", []⟩, ⟨"*Flat", ["string"]⟩], ["int32"], []⟩

theorem c7_witness :
    includeIdlPkg c7St c7Inc ∈ (checkUnusedPackagesAfterExpansion c7St).libNotUsed :=
  c7_unused_pruned c7St c7Inc (by decide) (by decide) (by decide) (by decide)

theorem c10_witness : "old" ∈ (checkUnusedPackagesAfterExpansion c7St).libNotUsed :=
  c10_prune_monotone c7St "old" (by decide)

theorem flatMapMap {α β γ : Type} (f : α → β) (g : β → List γ) :
    ∀ l : List α, (l.map f).flatMap g = l.flatMap (fun a => g (f a)) := by
  intro l
  induction l with
  | nil => rfl
  | cons x xs ih => simp only [List.map_cons, List.flatMap_cons, ih]

/-- All numeric field IDs a built structure carries: the declared fields'
IDs followed by every expanded field's adjusted ID. -/
def allBuiltIds (b : GStructLike) : List Int :=
  b.fields.map (fun gf => gf.src.id) ++
    b.fields.flatMap (fun gf => gf.expFields.map (fun e => e.field.id))

/-- The non-expandable sibling with ID 1001 of the C3 counterexample. -/
def c3FA : TField := ⟨"a", 1001, ⟨"i32", .scalar, none⟩, [], 0, none, ""⟩

/-- The expandable field with ID 1 of the C3 counterexample. -/
def c3FB : TField := ⟨"b", 1, ⟨"Base", .structCat, none⟩, annoExpandTrue, 0, none, ""⟩

/-- The base struct (child ID 1) of the C3 counterexample. -/
def c3Base : TStruct :=
  ⟨"Base", "struct", [⟨"code", 1, ⟨"i32", .scalar, none⟩, [], 0, none, ""⟩], [], none⟩

/-- The C3 counterexample scope. -/
def c3Ctx : GoCtx := ⟨⟨"m.thrift", [c3Base], [], []⟩, []⟩

/-- The C3 counterexample struct: declared IDs 1001 and 1; expanding field
1 against child ID 1 yields adjusted ID 1 + 1*1000 = 1001, colliding with
the declared sibling. -/
def c3V : TStruct := ⟨"P", "struct", [c3FA, c3FB], [], none⟩

/-- The golang build of `c3V`. -/
def c3Build : GStructLike := (buildStructLike id noSup featsOff c3Ctx NsAlloc.empty c3V none).1

theorem c3_counterexample :
    allBuiltIds c3Build = [1001, 1, 1001] ∧ ¬ (allBuiltIds c3Build).Nodup := by
  exact ⟨by decide, by decide⟩

/-- C3 (amended): when every declared field ID of the parent and every
field ID of each resolvable referenced structure lies in [1, 999] and the
relevant ID lists are duplicate-free, no expanded field's adjusted ID
collides with any sibling — declared or expanded — so the full ID list of
the built structure is duplicate-free. Outside these bounds the offset
scheme fails, as the counterexample shows. -/
theorem c3_no_collision_bounded (ident : String → String) (supIsSet : TField → Bool)
    (feats : GFeatures) (s : GoCtx) (globals : NsAlloc) (v : TStruct)
    (usedName : Option String)
    (hdn : (v.fields.map (fun f => f.id)).Nodup)
    (hdb : ∀ f ∈ v.fields, 1 ≤ f.id ∧ f.id ≤ 999)
    (hcb : ∀ f ∈ v.fields, ∀ rs ∈ (getReferencedStruct s f).toList,
      (∀ c ∈ rs.fields, 1 ≤ c.id ∧ c.id ≤ 999) ∧ (rs.fields.map (fun c => c.id)).Nodup) :
    (allBuiltIds (buildStructLike ident supIsSet feats s globals v usedName).1).Nodup := by
  have hsrc := buildMapSrc ident supIsSet feats s globals v usedName
  have hexp : ∀ gf ∈ (buildStructLike ident supIsSet feats s globals v usedName).1.fields,
      gf.expFields.map (fun e => e.field.id) = expandIdsOf s gf.src := by
    intro gf hgf
    obtain ⟨ns0, f, hf, rfl⟩ := buildMem ident supIsSet feats s globals v usedName gf hgf
    rw [buildOneFieldExpIds, buildOneFieldSrc]
  have hchar : ∀ f ∈ v.fields, ∀ x ∈ expandIdsOf s f,
      ∃ c : Int, (1 ≤ c ∧ c ≤ 999) ∧ x = c + f.id * 1000 := by
    intro f hf x hx
    obtain ⟨hf1, hf2⟩ := hdb f hf
    unfold expandIdsOf at hx
    cases hc : f.ftype.category.isStructLike
    · rw [hc] at hx; simp at hx
    · rw [hc] at hx
      simp only [if_true] at hx
      cases hrs : getReferencedStruct s f with
      | none => rw [hrs] at hx; simp at hx
      | some rs =>
        rw [hrs] at hx
        have hb := hcb f hf rs (by rw [hrs]; exact List.mem_singleton.mpr rfl)
        dsimp only at hx
        by_cases hcond : (goIsExpandField f || decide (rs.expandable = some true)) = true
        · rw [if_pos hcond] at hx
          obtain ⟨c, hcmem, rfl⟩ := List.mem_map.mp hx
          obtain ⟨hc1, hc2⟩ := hb.1 c hcmem
          refine ⟨c.id, ⟨hc1, hc2⟩, ?_⟩
          rw [wrap32Small (f.id * 1000) (by omega) (by omega),
            wrap32Small (c.id + f.id * 1000) (by omega) (by omega)]
        · rw [if_neg hcond] at hx; simp at hx
  unfold allBuiltIds
  have h1 : (buildStructLike ident supIsSet feats s globals v usedName).1.fields.map
      (fun gf => gf.src.id) = v.fields.map (fun f => f.id) := by
    rw [← hsrc, List.map_map]
    rfl
  have h2 : (buildStructLike ident supIsSet feats s globals v usedName).1.fields.flatMap
      (fun gf => gf.expFields.map (fun e => e.field.id)) =
      v.fields.flatMap (fun f => expandIdsOf s f) := by
    rw [flatMapCongr _ _ _ hexp, ← hsrc, flatMapMap]
  rw [h1, h2]
  have hpw : v.fields.Pairwise (fun f1 f2 => f1.id ≠ f2.id) := by
    have := (List.pairwise_map (f := fun f : TField => f.id)
      (R := fun a b : Int => a ≠ b) (l := v.fields)).mp hdn
    exact this
  apply List.Nodup.append
  · exact hdn
  · apply (List.nodup_flatMap).mpr
    constructor
    · intro f hf
      unfold expandIdsOf
      cases hc : f.ftype.category.isStructLike
      · simp
      · simp only [if_true]
        cases hrs : getReferencedStruct s f with
        | none => simp
        | some rs =>
          have hb := hcb f hf rs (by rw [hrs]; exact List.mem_singleton.mpr rfl)
          dsimp only
          by_cases hcond : (goIsExpandField f || decide (rs.expandable = some true)) = true
          · rw [if_pos hcond]
            obtain ⟨hf1, hf2⟩ := hdb f hf
            have hmm : rs.fields.map (fun c => wrap32 (c.id + wrap32 (f.id * 1000))) =
                (rs.fields.map (fun c => c.id)).map
                  (fun n => wrap32 (n + wrap32 (f.id * 1000))) := by
              rw [List.map_map]
              rfl
            rw [hmm]
            apply List.Nodup.map_on _ hb.2
            intro n1 hn1 n2 hn2 heq
            obtain ⟨c1, hc1m, rfl⟩ := List.mem_map.mp hn1
            obtain ⟨c2, hc2m, rfl⟩ := List.mem_map.mp hn2
            obtain ⟨hb1, hb2⟩ := hb.1 c1 hc1m
            obtain ⟨hb3, hb4⟩ := hb.1 c2 hc2m
            rw [wrap32Small (f.id * 1000) (by omega) (by omega),
              wrap32Small (c1.id + f.id * 1000) (by omega) (by omega),
              wrap32Small (c2.id + f.id * 1000) (by omega) (by omega)] at heq
            omega
          · rw [if_neg hcond]
            exact List.nodup_nil
    · apply hpw.imp_of_mem
      intro f1 f2 hm1 hm2 hne
      intro x hx1 hx2
      obtain ⟨c1, ⟨hb1, hb2⟩, heq1⟩ := hchar f1 hm1 x hx1
      obtain ⟨c2, ⟨hb3, hb4⟩, heq2⟩ := hchar f2 hm2 x hx2
      obtain ⟨hd1, hd2⟩ := hdb f1 hm1
      obtain ⟨hd3, hd4⟩ := hdb f2 hm2
      omega
  · intro x hx1 hx2
    obtain ⟨f1, hm1, heq1⟩ := List.mem_map.mp hx1
    obtain ⟨f2, hm2, hx3⟩ := List.mem_flatMap.mp hx2
    obtain ⟨c, ⟨hb1, hb2⟩, heq2⟩ := hchar f2 hm2 x hx3
    obtain ⟨hd1, hd2⟩ := hdb f1 hm1
    obtain ⟨hd3, hd4⟩ := hdb f2 hm2
    omega

/-- A well-bounded golang input for the C3 witness: declared IDs 1 and 2,
child IDs 1 and 2. -/
def c3WBase : TStruct :=
  ⟨"Base", "struct",
    [⟨"code", 1, ⟨"i32", .scalar, none⟩, [], 0, none, ""⟩,
     ⟨"msg", 2, ⟨"string", .scalar, none⟩, [], 0, none, ""⟩], [], some true⟩

/-- The scope of the C3 witness. -/
def c3WCtx : GoCtx := ⟨⟨"m.thrift", [c3WBase], [], []⟩, []⟩

/-- The struct of the C3 witness: a plain field and an expandable one. -/
def c3WV : TStruct :=
  ⟨"S", "struct",
    [⟨"x", 1, ⟨"i32", .scalar, none⟩, [], 0, none, ""⟩,
     ⟨"base", 2, ⟨"Base", .structCat, none⟩, [], 0, none, ""⟩], [], none⟩

theorem c3_witness :
    (allBuiltIds (buildStructLike id noSup featsOff c3WCtx NsAlloc.empty c3WV none).1).Nodup :=
  c3_no_collision_bounded id noSup featsOff c3WCtx NsAlloc.empty c3WV none
    (by decide) (by decide) (by decide)
